import Mathlib

/-!
Shallow embedding of the hectorlin/hft_cpp repository (HFT TCP message
servers) together with proofs about the embedded operations.

Source files embedded here:
* `src/ultra_hft_server.h`   : `LockFreeRingBuffer`, `UltraMessage`,
  `UltraConnection`, `UltraServerStats` (`get_average_latency`).
* `src/ultra_hft_server.cpp` : `accept_connections`, `handle_client_events`,
  `process_message`, `close_connection`, `stop`, `get_next_send_buffer`.
* `src/hft_server.h` / `src/hft_server.cpp` : `Connection`, `ServerStats`,
  `accept_connections`, `handle_client_events`, `process_client_message`,
  `close_connection`, `stop`.
* `src/message.h`            : `Message` (constructor, `clear`, `is_valid`).

Machine integers are modelled as `Nat`; `% 2 ^ 64` is written explicitly at
the places where `uint64_t` / `size_t` wrap-around matters (the atomic
counters that are decremented or used modulo a capacity).  I/O effects
(epoll registration, socket close, `recv`/`accept` results, handler calls,
log lines) are modelled as explicit state fields and environment-provided
outcome lists.
-/

/-- The errno values distinguished by the server sources.  `other` stands
for every errno that is not handled specially. -/
inductive Errno where
  | EAGAIN
  | EWOULDBLOCK
  | ECONNRESET
  | EPIPE
  | EINTR
  | other
deriving DecidableEq

/-! ## Lock-free ring buffer (`src/ultra_hft_server.h` lines 20-76)

The C++ template `LockFreeRingBuffer<T, SIZE>` stores `head_` and `tail_`
as `size_t` indices that are always written already masked by
`MASK = SIZE - 1`, and a `std::array<T, SIZE>` of slots.  The static
assertion requires `SIZE` to be a power of two.  The buffer array is
modelled as a total function on `Nat`; all reads and writes happen at
masked indices below `SIZE`. -/

structure LockFreeRingBuffer (T : Type) (N : Nat) where
  buffer : Nat → T
  head : Nat
  tail : Nat

namespace LockFreeRingBuffer

/-- `push` (header lines 33-44): compute `next_tail = (tail + 1) & MASK`;
if it equals `head` the ring is full and `false` is returned with the ring
unchanged; otherwise the item is stored at the old `tail` and `tail`
becomes `next_tail`. -/
def push {T : Type} {N : Nat} (r : LockFreeRingBuffer T N) (item : T) :
    Bool × LockFreeRingBuffer T N :=
  let next_tail := (r.tail + 1) &&& (N - 1)
  if next_tail = r.head then
    (false, r)
  else
    (true,
      { buffer := fun i => if i = r.tail then item else r.buffer i
        head := r.head
        tail := next_tail })

/-- `pop` (header lines 46-56): if `head = tail` the ring is empty and
`false` is returned (modelled as `none`) with the ring unchanged;
otherwise the slot at `head` is read out and `head` becomes
`(head + 1) & MASK`. -/
def pop {T : Type} {N : Nat} (r : LockFreeRingBuffer T N) :
    Option T × LockFreeRingBuffer T N :=
  if r.head = r.tail then
    (none, r)
  else
    (some (r.buffer r.head), { r with head := (r.head + 1) &&& (N - 1) })

/-- `empty` (header lines 58-60). -/
def empty {T : Type} {N : Nat} (r : LockFreeRingBuffer T N) : Bool :=
  r.head == r.tail

/-- `full` (header lines 62-65). -/
def full {T : Type} {N : Nat} (r : LockFreeRingBuffer T N) : Bool :=
  ((r.tail + 1) &&& (N - 1)) == r.head

/-- `capacity` (header lines 73-75): one slot is reserved for full
detection, so the usable capacity is `SIZE - 1`. -/
def capacity (N : Nat) : Nat := N - 1

end LockFreeRingBuffer

/-- A freshly constructed ring: `head_ = tail_ = 0`, slots value-initialized
to the element type's default value `d`. -/
def initRing {T : Type} (N : Nat) (d : T) : LockFreeRingBuffer T N :=
  { buffer := fun _ => d, head := 0, tail := 0 }

/-- One client operation on a ring: a push of a value or a pop. -/
inductive RingOp (T : Type) where
  | push (a : T)
  | pop

/-- The number of pushes in an operation sequence. -/
def countPush {T : Type} : List (RingOp T) → Nat
  | [] => 0
  | RingOp.push _ :: ops => countPush ops + 1
  | RingOp.pop :: ops => countPush ops

/-- The number of pops in an operation sequence. -/
def countPop {T : Type} : List (RingOp T) → Nat
  | [] => 0
  | RingOp.push _ :: ops => countPop ops
  | RingOp.pop :: ops => countPop ops + 1

/-- The sequence of pushed values, in push order. -/
def pushedSeq {T : Type} : List (RingOp T) → List T
  | [] => []
  | RingOp.push a :: ops => a :: pushedSeq ops
  | RingOp.pop :: ops => pushedSeq ops

/-- `popsOk ops n` holds when, starting from a ring holding `n` items in
which every push succeeds, every pop in `ops` is issued while the ring is
non-empty (so every pop succeeds). -/
def popsOk {T : Type} : List (RingOp T) → Nat → Bool
  | [], _ => true
  | RingOp.push _ :: ops, n => popsOk ops (n + 1)
  | RingOp.pop :: ops, n => decide (n ≠ 0) && popsOk ops (n - 1)

/-- Run a sequence of operations against the ring, returning the final
ring and the sequence of successfully popped values in pop order.  A push
that returns `false` and a pop that returns `false` leave the ring
unchanged and contribute nothing. -/
def runRing {T : Type} {N : Nat} :
    List (RingOp T) → LockFreeRingBuffer T N → LockFreeRingBuffer T N × List T
  | [], r => (r, [])
  | RingOp.push a :: ops, r => runRing ops (r.push a).2
  | RingOp.pop :: ops, r =>
    match r.pop with
    | (none, r1) => runRing ops r1
    | (some x, r1) =>
      let rest := runRing ops r1
      (rest.1, x :: rest.2)

/-! ### Ring buffer correctness development -/

/-- Masking by `SIZE - 1` equals reduction modulo `SIZE` for a power of
two, which is what the static assertion in the template guarantees. -/
lemma land_mask (x k : Nat) : x &&& (2 ^ k - 1) = x % 2 ^ k :=
  Nat.and_pow_two_sub_one_eq_mod x k

/-- Two naturals within a window shorter than `n` that agree modulo `n`
are equal. -/
lemma mod_cancel_of_lt {a b n : Nat} (hab : a ≤ b) (hlt : b - a < n)
    (h : a % n = b % n) : a = b := by
  have hd : n ∣ b - a := (Nat.modEq_iff_dvd' hab).mp h
  have hz : b - a = 0 := Nat.eq_zero_of_dvd_of_lt hd hlt
  omega

/-- The length of the pushed-value sequence is the number of pushes. -/
lemma pushedSeq_length {T : Type} (ops : List (RingOp T)) :
    (pushedSeq ops).length = countPush ops := by
  induction ops with
  | nil => rfl
  | cons op ops ih => cases op <;> simp [pushedSeq, countPush, ih]

/-- Coupling invariant between a ring-buffer state and a ghost history:
`P` is the list of all values pushed so far (pushes all succeeded) and
`c` is the number of values popped so far.  `head`/`tail` are the masked
pop/push counters, the ring holds between `0` and `SIZE - 1` items, and
slot `j % SIZE` holds the `j`-th pushed value for every in-flight `j`. -/
def RingInv {T : Type} (k : Nat) (r : LockFreeRingBuffer T (2 ^ k))
    (P : List T) (c : Nat) : Prop :=
  r.head = c % 2 ^ k ∧
  r.tail = P.length % 2 ^ k ∧
  c ≤ P.length ∧
  P.length ≤ c + (2 ^ k - 1) ∧
  ∀ j : Nat, c ≤ j → ∀ hj : j < P.length, r.buffer (j % 2 ^ k) = P.get ⟨j, hj⟩

/-- The freshly constructed ring satisfies the invariant with empty
history. -/
lemma ringInv_init {T : Type} (k : Nat) (d : T) :
    RingInv k (initRing (2 ^ k) d) [] 0 := by
  refine ⟨by simp [initRing], by simp [initRing], le_refl 0, by simp, ?_⟩
  intro j hj hjlt
  simp at hjlt

/-- Main simulation lemma: running any operation sequence whose pushes fit
into the reserved-slot capacity window advances the ghost history by the
pushed values and pops a contiguous segment of it, in order.  If moreover
every pop is issued on a non-empty ring, exactly `countPop ops` values are
popped. -/
lemma runRing_spec {T : Type} (k : Nat) :
    ∀ (ops : List (RingOp T)) (r : LockFreeRingBuffer T (2 ^ k))
      (P : List T) (c : Nat),
      RingInv k r P c →
      P.length + countPush ops ≤ c + (2 ^ k - 1) →
      ∃ c', c ≤ c' ∧ c' ≤ P.length + countPush ops ∧
        RingInv k (runRing ops r).1 (P ++ pushedSeq ops) c' ∧
        (runRing ops r).2 = ((P ++ pushedSeq ops).take c').drop c ∧
        (popsOk ops (P.length - c) = true → c' = c + countPop ops) := by
  intro ops
  induction ops with
  | nil =>
    intro r P c hinv hcap
    refine ⟨c, le_refl c, by simpa [countPush] using hinv.2.2.1, ?_, ?_, ?_⟩
    · simpa [runRing, pushedSeq] using hinv
    · have hlen : (P.take c).length ≤ c := by simp
      simp [runRing, pushedSeq, List.drop_eq_nil_of_le hlen]
    · intro _; simp [countPop]
  | cons op ops ih =>
    intro r P c hinv hcap
    obtain ⟨hhead, htail, hcle, hcap0, hbuf⟩ := hinv
    have hN : 0 < 2 ^ k := Nat.pow_pos (by norm_num)
    cases op with
    | push a =>
      -- the push succeeds: the capacity window has room
      have hcap1 : P.length + 1 ≤ c + (2 ^ k - 1) := by
        simp [countPush] at hcap; omega
      have hne : ((r.tail + 1) % 2 ^ k) ≠ r.head := by
        rw [htail, Nat.mod_add_mod, hhead]
        intro h
        have heq := mod_cancel_of_lt (n := 2 ^ k) (a := c) (b := P.length + 1)
          (by omega) (by omega) h.symm
        omega
      set r1 : LockFreeRingBuffer T (2 ^ k) :=
        { buffer := fun i => if i = r.tail then a else r.buffer i
          head := r.head
          tail := (r.tail + 1) % 2 ^ k } with hr1
      have hpush : r.push a = (true, r1) := by
        simp [LockFreeRingBuffer.push, land_mask, hne, hr1]
      have hrun : runRing (RingOp.push a :: ops) r = runRing ops r1 := by
        simp [runRing, hpush]
      have hinv1 : RingInv k r1 (P ++ [a]) c := by
        refine ⟨hhead, ?_, by simpa using Nat.le_succ_of_le hcle, by simp; omega, ?_⟩
        · show (r.tail + 1) % 2 ^ k = (P ++ [a]).length % 2 ^ k
          rw [htail, Nat.mod_add_mod]
          simp
        · intro j hcj hj
          simp only [List.length_append, List.length_cons, List.length_nil] at hj
          by_cases hje : j = P.length
          · have hjr : j % 2 ^ k = r.tail := by rw [hje, htail]
            show (if j % 2 ^ k = r.tail then a else r.buffer (j % 2 ^ k)) = _
            rw [if_pos hjr]
            have hconcat := List.getElem_concat_length P a j hje (by simp [hje])
            simp [List.get_eq_getElem, hconcat]
          · have hjlt : j < P.length := by omega
            have hne2 : j % 2 ^ k ≠ r.tail := by
              rw [htail]
              intro h
              have := mod_cancel_of_lt (n := 2 ^ k) (a := j) (b := P.length)
                (le_of_lt hjlt) (by omega) h
              omega
            show (if j % 2 ^ k = r.tail then a else r.buffer (j % 2 ^ k)) = _
            rw [if_neg hne2, hbuf j hcj hjlt]
            simp only [List.get_eq_getElem]
            rw [List.getElem_append_left]
      have hcap2 : (P ++ [a]).length + countPush ops ≤ c + (2 ^ k - 1) := by
        simp [countPush] at hcap ⊢; omega
      obtain ⟨c', h1, h2, h3, h4, h5⟩ := ih r1 (P ++ [a]) c hinv1 hcap2
      have happ : (P ++ [a]) ++ pushedSeq ops = P ++ pushedSeq (RingOp.push a :: ops) := by
        simp [pushedSeq]
      refine ⟨c', h1, ?_, ?_, ?_, ?_⟩
      · simp [countPush] at h2 ⊢; omega
      · rw [hrun]
        rw [happ] at h3
        exact h3
      · rw [hrun]
        rw [happ] at h4
        exact h4
      · intro hok
        have hok1 : popsOk ops ((P ++ [a]).length - c) = true := by
          have hs : (P ++ [a]).length - c = P.length - c + 1 := by simp; omega
          rw [hs]
          simpa [popsOk] using hok
        have := h5 hok1
        simpa [countPop] using this
    | pop =>
      by_cases hfull : c = P.length
      · -- ring empty: the pop fails and leaves the ring unchanged
        have hhe : r.head = r.tail := by rw [hhead, htail, hfull]
        have hpop : r.pop = (none, r) := by
          simp [LockFreeRingBuffer.pop, hhe]
        have hrun : runRing (RingOp.pop :: ops) r = runRing ops r := by
          simp [runRing, hpop]
        have hcap2 : P.length + countPush ops ≤ c + (2 ^ k - 1) := by
          simpa [countPush] using hcap
        obtain ⟨c', h1, h2, h3, h4, h5⟩ :=
          ih r P c ⟨hhead, htail, hcle, hcap0, hbuf⟩ hcap2
        refine ⟨c', h1, by simpa [countPush] using h2, ?_, ?_, ?_⟩
        · rw [hrun]; simpa [pushedSeq] using h3
        · rw [hrun]; simpa [pushedSeq] using h4
        · intro hok
          exfalso
          have hz : P.length - c = 0 := by omega
          rw [popsOk, hz] at hok
          simp at hok
      · -- ring non-empty: the pop succeeds
        have hclt : c < P.length := lt_of_le_of_ne hcle hfull
        have hhe : r.head ≠ r.tail := by
          rw [hhead, htail]
          intro h
          have := mod_cancel_of_lt (n := 2 ^ k) (a := c) (b := P.length)
            (le_of_lt hclt) (by omega) h
          omega
        set r1 : LockFreeRingBuffer T (2 ^ k) :=
          { r with head := (r.head + 1) % 2 ^ k } with hr1
        have hpop : r.pop = (some (r.buffer r.head), r1) := by
          simp [LockFreeRingBuffer.pop, land_mask, hhe, hr1]
        have hx : r.buffer r.head = P.get ⟨c, hclt⟩ := by
          rw [hhead]; exact hbuf c (le_refl c) hclt
        have hinv1 : RingInv k r1 P (c + 1) := by
          refine ⟨?_, htail, hclt, by omega, ?_⟩
          · show (r.head + 1) % 2 ^ k = (c + 1) % 2 ^ k
            rw [hhead, Nat.mod_add_mod]
          · intro j hcj hj
            exact hbuf j (by omega) hj
        have hcap2 : P.length + countPush ops ≤ (c + 1) + (2 ^ k - 1) := by
          simp [countPush] at hcap; omega
        obtain ⟨c', h1, h2, h3, h4, h5⟩ := ih r1 P (c + 1) hinv1 hcap2
        have hrun : runRing (RingOp.pop :: ops) r =
            ((runRing ops r1).1, r.buffer r.head :: (runRing ops r1).2) := by
          simp [runRing, hpop]
        have hlenL : c' ≤ (P ++ pushedSeq ops).length := by
          simp [pushedSeq_length]
          omega
        have hcL : c < (P ++ pushedSeq ops).length := by
          simp
          omega
        have hgoal : ((P ++ pushedSeq ops).take c').drop c =
            (P ++ pushedSeq ops).get ⟨c, hcL⟩ ::
              ((P ++ pushedSeq ops).take c').drop (c + 1) := by
          simp only [List.get_eq_getElem]
          rw [List.drop_eq_getElem_cons (by simp; omega), List.getElem_take]
        refine ⟨c', by omega, by simpa [countPush] using h2, ?_, ?_, ?_⟩
        · rw [hrun]; simpa [pushedSeq] using h3
        · rw [hrun]
          simp only [pushedSeq]
          rw [hgoal, hx, h4]
          simp only [List.get_eq_getElem]
          rw [List.getElem_append_left]
        · intro hok
          rw [popsOk] at hok
          have hz : P.length - c ≠ 0 := by omega
          simp [hz] at hok
          have hs : P.length - c - 1 = P.length - (c + 1) := by omega
          rw [hs] at hok
          have := h5 hok
          simp [countPop]
          omega

/-- C1 (amended): for the lock-free ring buffer of power-of-two size `N`,
`push` returns false exactly when `(tail + 1) mod N = head`, which under
the coupling invariant means `N - 1` items are stored, and a failing push
leaves the ring unchanged; `pop` returns false exactly when the ring is
empty (`head = tail`) and a failing pop leaves the ring unchanged; and for
every sequence of `M` pushes interleaved with `M` pops on a ring of
capacity `C = N - 1 ≥ M` in which every pop is issued while the ring is
non-empty, the popped sequence equals the pushed sequence (FIFO) and
`empty()` holds afterwards. -/
theorem ring_push_pop_fifo {T : Type} (k M : Nat) (d : T)
    (ops : List (RingOp T))
    (hcntPush : countPush ops = M) (hcntPop : countPop ops = M)
    (hM : M ≤ LockFreeRingBuffer.capacity (2 ^ k))
    (hok : popsOk ops 0 = true) :
    (∀ (r : LockFreeRingBuffer T (2 ^ k)) (x : T),
       ((r.push x).1 = false ↔ (r.tail + 1) % 2 ^ k = r.head) ∧
       ((r.push x).1 = false → (r.push x).2 = r)) ∧
    (∀ r : LockFreeRingBuffer T (2 ^ k),
       ((r.pop).1 = none ↔ r.head = r.tail) ∧
       ((r.pop).1 = none → (r.pop).2 = r)) ∧
    (∀ (r : LockFreeRingBuffer T (2 ^ k)) (P : List T) (c : Nat),
       RingInv k r P c → (r.full = true ↔ P.length - c = 2 ^ k - 1)) ∧
    ((runRing ops (initRing (2 ^ k) d)).2 = pushedSeq ops ∧
     (runRing ops (initRing (2 ^ k) d)).1.empty = true) := by
  have hN : 0 < 2 ^ k := Nat.pow_pos (by norm_num)
  refine ⟨?_, ?_, ?_, ?_⟩
  · intro r x
    constructor
    · rw [LockFreeRingBuffer.push]
      simp only [land_mask]
      by_cases h : (r.tail + 1) % 2 ^ k = r.head <;> simp [h]
    · rw [LockFreeRingBuffer.push]
      simp only [land_mask]
      by_cases h : (r.tail + 1) % 2 ^ k = r.head <;> simp [h]
  · intro r
    constructor
    · rw [LockFreeRingBuffer.pop]
      by_cases h : r.head = r.tail <;> simp [h]
    · rw [LockFreeRingBuffer.pop]
      by_cases h : r.head = r.tail <;> simp [h]
  · intro r P c hinv
    obtain ⟨hhead, htail, hcle, hcap0, _⟩ := hinv
    rw [LockFreeRingBuffer.full]
    simp only [land_mask, htail, hhead, Nat.mod_add_mod, beq_iff_eq]
    constructor
    · intro h
      have hd : 2 ^ k ∣ (P.length + 1) - c :=
        (Nat.modEq_iff_dvd' (by omega)).mp h.symm
      have hle : 2 ^ k ≤ P.length + 1 - c := Nat.le_of_dvd (by omega) hd
      omega
    · intro h
      have hs : P.length + 1 = c + 2 ^ k := by omega
      rw [hs, Nat.add_mod_right]
  · obtain ⟨c', h1, h2, h3, h4, h5⟩ :=
      runRing_spec k ops (initRing (2 ^ k) d) [] 0 (ringInv_init k d)
        (by simpa [LockFreeRingBuffer.capacity, hcntPush] using hM)
    have hc' : c' = M := by
      have := h5 (by simpa using hok)
      omega
    have hplen : (pushedSeq ops).length = M := by
      rw [pushedSeq_length, hcntPush]
    constructor
    · rw [h4, hc']
      simp [← hplen]
    · obtain ⟨hhead, htail, _, _, _⟩ := h3
      rw [LockFreeRingBuffer.empty, hhead, htail]
      simp [hplen, hc', hcntPop]

/-- C1 counterexample: on a ring of size 2 (capacity 1), the interleaving
consisting of one pop followed by one push of 42 has M = 1 pushes and
M = 1 pops with C = 1 ≥ M, yet the popped sequence is empty (not equal to
the pushed sequence [42]) and the ring is not empty afterwards: the pop
was issued on an empty ring, so it returned false and popped nothing. -/
theorem ring_fifo_pop_first_counterexample :
    countPush [RingOp.pop, RingOp.push (42 : Nat)] = 1 ∧
    countPop [RingOp.pop, RingOp.push (42 : Nat)] = 1 ∧
    1 ≤ LockFreeRingBuffer.capacity (2 ^ 1) ∧
    ¬ ((runRing [RingOp.pop, RingOp.push (42 : Nat)]
          (initRing (2 ^ 1) (0 : Nat))).2 =
         pushedSeq [RingOp.pop, RingOp.push (42 : Nat)] ∧
       (runRing [RingOp.pop, RingOp.push (42 : Nat)]
          (initRing (2 ^ 1) (0 : Nat))).1.empty = true) := by
  refine ⟨rfl, rfl, by decide, ?_⟩
  intro h
  simpa [runRing, initRing, pushedSeq, LockFreeRingBuffer.pop] using h.1

/-- Witness for `ring_push_pop_fifo`: a push of 7 followed by one pop on a
ring of size 2 satisfies every hypothesis, and the FIFO conclusion holds
there. -/
theorem ring_push_pop_fifo_witness :
    countPush [RingOp.push (7 : Nat), RingOp.pop] = 1 ∧
    countPop [RingOp.push (7 : Nat), RingOp.pop] = 1 ∧
    1 ≤ LockFreeRingBuffer.capacity (2 ^ 1) ∧
    popsOk [RingOp.push (7 : Nat), RingOp.pop] 0 = true ∧
    ((runRing [RingOp.push (7 : Nat), RingOp.pop]
        (initRing (2 ^ 1) (0 : Nat))).2 =
       pushedSeq [RingOp.push (7 : Nat), RingOp.pop] ∧
     (runRing [RingOp.push (7 : Nat), RingOp.pop]
        (initRing (2 ^ 1) (0 : Nat))).1.empty = true) :=
  ⟨rfl, rfl, by decide, by decide,
    (ring_push_pop_fifo 1 1 (0 : Nat) [RingOp.push (7 : Nat), RingOp.pop]
      rfl rfl (by decide) (by decide)).2.2.2⟩

/-! ## Messages (`src/message.h`)

`MessageType` is an 8-bit enum class; on the wire the tag is a raw byte
and `handle_client_events` compares it against the enumerators, so the tag
is modelled as a `Nat` with one named constant per enumerator. -/

/-- Tag values of `enum class MessageType` (`src/message.h` lines 14-25). -/
def MessageTag.ORDER_NEW : Nat := 0x01
def MessageTag.ORDER_CANCEL : Nat := 0x02
def MessageTag.ORDER_REPLACE : Nat := 0x03
def MessageTag.ORDER_FILL : Nat := 0x04
def MessageTag.ORDER_REJECT : Nat := 0x05
def MessageTag.MARKET_DATA : Nat := 0x06
def MessageTag.HEARTBEAT : Nat := 0x07
def MessageTag.LOGIN : Nat := 0x08
def MessageTag.LOGOUT : Nat := 0x09
def MessageTag.ERROR : Nat := 0xFF

/-- Membership in the enumerated tag set of §6 of the spec:
{0x01 .. 0x09, 0xFF}. -/
def validMessageTag (t : Nat) : Bool :=
  (1 ≤ t && t ≤ 9) || t == 0xFF

/-- Tag values of `enum class MessageStatus` (`src/message.h` lines 58-63). -/
def MessageStatusTag.PENDING : Nat := 0x01
def MessageStatusTag.PROCESSED : Nat := 0x02

/-- The base `Message` record (`src/message.h` lines 68-135).  The 1024-byte
payload buffer is a function from `Fin 1024`. -/
structure Message where
  message_id : Nat
  timestamp : Nat
  sequence_number : Nat
  message_type : Nat
  status : Nat
  source_id : Nat
  destination_id : Nat
  payload_size : Nat
  payload : Fin 1024 → Nat

/-- The default constructor (`src/message.h` lines 83-87): everything is
zeroed, `message_type = HEARTBEAT`, `status = PENDING`, `payload.fill(0)`. -/
def Message.mkDefault : Message :=
  { message_id := 0
    timestamp := 0
    sequence_number := 0
    message_type := MessageTag.HEARTBEAT
    status := MessageStatusTag.PENDING
    source_id := 0
    destination_id := 0
    payload_size := 0
    payload := fun _ => 0 }

/-- `Message::clear` (`src/message.h` lines 124-134). -/
def Message.clear (_ : Message) : Message :=
  { message_id := 0
    timestamp := 0
    sequence_number := 0
    message_type := MessageTag.HEARTBEAT
    status := MessageStatusTag.PENDING
    source_id := 0
    destination_id := 0
    payload_size := 0
    payload := fun _ => 0 }

/-- `Message::is_valid` (`src/message.h` lines 117-119): note that it does
NOT check the tag set, and it is never called on the server receive path. -/
def Message.is_valid (m : Message) : Bool :=
  m.message_id != 0 && m.timestamp != 0 && m.payload_size ≤ 1024

/-- `sizeof(Message)` under the x86-64 System V layout the servers are
compiled for: a 40-byte header (with padding) plus the 1024-byte payload. -/
def sizeofMessage : Nat := 1064

/-- `sizeof(OrderMessage)` (base subobject plus order fields, padded). -/
def sizeofOrderMessage : Nat := 1128

/-- `sizeof(MarketDataMessage)` (base subobject plus market-data fields). -/
def sizeofMarketDataMessage : Nat := 1152

/-! ## HFT server dispatch and per-connection service
(`src/hft_server.cpp` lines 210-312)

The observable state of one `handle_client_events` call: the state of the
connection being serviced, the list of handler invocations performed (the
tag each `IMessageService::process_message` call was dispatched under, in
order), the `total_messages_processed` counter, and the number of `Recv
failed` error logs.  The three `process_client_message` overloads (base,
order, market data) perform the identical registry lookup, conditional
handler call and counter increment, so a single function models all
three. -/

structure HftConnState where
  sockOpen : Bool
  inEpoll : Bool
  inTable : Bool
deriving DecidableEq

structure HftIoState where
  conn : HftConnState
  invoked : List Nat
  total_messages_processed : Nat
  recvErrorLogs : Nat
deriving DecidableEq

/-- `HFTServer::process_client_message` (`src/hft_server.cpp` lines
280-312, and the overloads at 314-348 and 350-383): look the service up in
the registry under `msg.message_type`; if one is registered invoke it;
then increment `total_messages_processed`.  The latency EMA update touches
no field modelled here. -/
def hftProcessClientMessage (services : Nat → Bool) (st : HftIoState)
    (m : Message) : HftIoState :=
  let st :=
    if services m.message_type then
      { st with invoked := st.invoked ++ [m.message_type] }
    else
      st
  { st with total_messages_processed := st.total_messages_processed + 1 }

/-- `HFTServer::close_connection` (`src/hft_server.cpp` lines 395-403):
`epoll_ctl(DEL)`, `close(fd)`, erase from `connections_`. -/
def hftCloseConnection (st : HftIoState) : HftIoState :=
  { st with conn := { sockOpen := false, inEpoll := false, inTable := false } }

/-- The outcome of one `recv` call as seen by the server: `data n m` means
`recv` returned `n > 0` bytes and the receive buffer holds the record `m`;
`eof` means `recv` returned 0; `fail e` means `recv` returned -1 with
errno `e`. -/
inductive RecvOutcome where
  | data (n : Nat) (m : Message)
  | eof
  | fail (e : Errno)

/-- The drain loop of `HFTServer::handle_client_events`
(`src/hft_server.cpp` lines 227-277), consuming one `recv` outcome per
iteration:
* `-1` with EAGAIN/EWOULDBLOCK: break out of the loop;
* `-1` with any other errno: log `Recv failed` and return — the
  connection is NOT closed;
* `0`: peer disconnected, `close_connection` and return;
* `n ≥ sizeof(Message)`: dispatch (order variant when the tag is
  ORDER_NEW/CANCEL/REPLACE and `n ≥ sizeof(OrderMessage)`, market-data
  variant when the tag is MARKET_DATA and `n ≥ sizeof(MarketDataMessage)`,
  base record otherwise) and keep draining;
* `0 < n < sizeof(Message)`: log the incomplete message and keep
  draining. -/
def hftHandleClientEvents (services : Nat → Bool) :
    List RecvOutcome → HftIoState → HftIoState
  | [], st => st
  | RecvOutcome.fail e :: _, st =>
    if e = Errno.EAGAIN ∨ e = Errno.EWOULDBLOCK then
      st
    else
      { st with recvErrorLogs := st.recvErrorLogs + 1 }
  | RecvOutcome.eof :: _, st => hftCloseConnection st
  | RecvOutcome.data n m :: rest, st =>
    let st :=
      if sizeofMessage ≤ n then
        if m.message_type = MessageTag.ORDER_NEW ∨
           m.message_type = MessageTag.ORDER_CANCEL ∨
           m.message_type = MessageTag.ORDER_REPLACE then
          if sizeofOrderMessage ≤ n then
            hftProcessClientMessage services st m
          else
            st
        else if m.message_type = MessageTag.MARKET_DATA then
          if sizeofMarketDataMessage ≤ n then
            hftProcessClientMessage services st m
          else
            st
        else
          hftProcessClientMessage services st m
      else
        st
    hftHandleClientEvents services rest st

/-- Feeding a whole sequence of complete records to the dispatcher. -/
def hftDispatchAll (services : Nat → Bool) (st : HftIoState)
    (msgs : List Message) : HftIoState :=
  msgs.foldl (hftProcessClientMessage services) st

/-! ## Ultra server (`src/ultra_hft_server.h` / `.cpp`) -/

/-- `2 ^ 64`, the wrap-around modulus of `uint64_t` / `size_t`. -/
def U64 : Nat := 2 ^ 64

/-- `UltraMessage` (`src/ultra_hft_server.h` lines 79-97). -/
structure UltraMessage where
  message_id : Nat
  timestamp : Nat
  message_type : Nat
  payload_size : Nat
  payload : Fin 1024 → Nat

/-- `sizeof(UltraMessage)`: 24 bytes of header plus 1024 payload bytes,
rounded up to the `alignas(64)` cache-line alignment. -/
def sizeofUltraMessage : Nat := 1088

/-- `UltraConnection` (`src/ultra_hft_server.h` lines 131-140), together
with the modelled I/O status of its socket and its epoll registration. -/
structure UltraConnection where
  fd : Nat
  client_id : Nat
  is_active : Bool
  sockOpen : Bool
  inEpoll : Bool
deriving DecidableEq

/-- `UltraServerStats` (`src/ultra_hft_server.h` lines 143-155), atomics
modelled as plain counters.  `active_connections` is decremented with
`fetch_sub` on a `uint64_t`, so its arithmetic is taken modulo `2 ^ 64`. -/
structure UltraServerStats where
  total_messages : Nat
  active_connections : Nat
  peak_connections : Nat
  total_latency : Nat
  message_count : Nat
deriving DecidableEq

/-- `UltraServerStats::get_average_latency` (`src/ultra_hft_server.h`
lines 150-154): the `double` result is modelled as a rational; the zero
check guards the division. -/
def UltraServerStats.get_average_latency (s : UltraServerStats) : Rat :=
  if s.message_count = 0 then 0
  else (s.total_latency : Rat) / (s.message_count : Rat)

/-- The part of `UltraHFTServer`'s state touched by the accept path, the
client-event path and message processing: the `connections_` vector, the
`connection_count_` client-id counter, the statistics, the two
buffer-pool counters, and the ordered list of type-specific processing
routines invoked (tag 1 = order handler, tag 2 = market-data handler). -/
structure UltraState where
  connections : List UltraConnection
  connection_count : Nat
  stats : UltraServerStats
  send_buffer_index : Nat
  recv_buffer_index : Nat
  invoked : List Nat
deriving DecidableEq

def ultraInitState : UltraState :=
  { connections := []
    connection_count := 0
    stats := { total_messages := 0, active_connections := 0,
               peak_connections := 0, total_latency := 0, message_count := 0 }
    send_buffer_index := 0
    recv_buffer_index := 0
    invoked := [] }

/-- `UltraHFTServer::get_next_send_buffer` (`src/ultra_hft_server.cpp`
lines 404-407): `index = send_buffer_index_.fetch_add(1) % 1024`; the old
counter value selects the slot and the stored counter becomes the old
value plus one, wrapping as a `size_t`. -/
def ultraGetNextSendBuffer (st : UltraState) : Nat × UltraState :=
  (st.send_buffer_index % 1024,
   { st with send_buffer_index := (st.send_buffer_index + 1) % U64 })

/-- `UltraHFTServer::get_next_recv_buffer` (`src/ultra_hft_server.cpp`
lines 409-412). -/
def ultraGetNextRecvBuffer (st : UltraState) : Nat × UltraState :=
  (st.recv_buffer_index % 1024,
   { st with recv_buffer_index := (st.recv_buffer_index + 1) % U64 })

/-- The wrap-around decrement performed by `fetch_sub(1)` on a `uint64_t`
counter whose value is below `2 ^ 64`: zero wraps to `2 ^ 64 - 1`,
anything else is decremented by one. -/
def u64sub1 (x : Nat) : Nat :=
  match x with
  | 0 => U64 - 1
  | Nat.succ y => y

/-- `UltraHFTServer::close_connection` (`src/ultra_hft_server.cpp` lines
346-362): mark the connection inactive, deregister it from epoll, close
its socket and decrement `active_connections` (`fetch_sub(1)` on a
`uint64_t`, hence `u64sub1`) — the record is NOT removed from the
`connections_` vector. -/
def ultraCloseConnection (st : UltraState) (fd : Nat) : UltraState :=
  { st with
    connections := st.connections.map fun c =>
      if c.fd = fd then
        { c with is_active := false, sockOpen := false, inEpoll := false }
      else c
    stats := { st.stats with
      active_connections := u64sub1 st.stats.active_connections } }

/-- `UltraHFTServer::update_stats` (`src/ultra_hft_server.cpp` lines
414-417). -/
def ultraUpdateStats (st : UltraState) (latency : Nat) : UltraState :=
  { st with stats := { st.stats with
      total_latency := st.stats.total_latency + latency
      message_count := st.stats.message_count + 1 } }

/-- `UltraHFTServer::process_order_message` (`src/ultra_hft_server.cpp`
lines 283-300): log, then build an acknowledgement in the next send-buffer
slot and send it. -/
def ultraProcessOrderMessage (st : UltraState) (_ : UltraMessage) : UltraState :=
  let st := { st with invoked := st.invoked ++ [1] }
  (ultraGetNextSendBuffer st).2

/-- `UltraHFTServer::process_market_data_message`
(`src/ultra_hft_server.cpp` lines 302-319). -/
def ultraProcessMarketDataMessage (st : UltraState) (_ : UltraMessage) : UltraState :=
  let st := { st with invoked := st.invoked ++ [2] }
  (ultraGetNextSendBuffer st).2

/-- `UltraHFTServer::process_message` (`src/ultra_hft_server.cpp` lines
263-281): dispatch on the type tag (1 = order, 2 = market data, anything
else only logs `Unknown message type`), then increment `total_messages`
unconditionally. -/
def ultraProcessMessage (st : UltraState) (m : UltraMessage) : UltraState :=
  let st :=
    if m.message_type = 1 then
      ultraProcessOrderMessage st m
    else if m.message_type = 2 then
      ultraProcessMarketDataMessage st m
    else
      st
  { st with stats := { st.stats with
      total_messages := st.stats.total_messages + 1 } }

/-- The outcome of the single `recv` in
`UltraHFTServer::handle_client_events`.  `data n m latency` carries the
measured receive latency `receive_time - msg->timestamp`, which depends on
the clock and is therefore environment-provided. -/
inductive UltraRecvOutcome where
  | data (n : Nat) (m : UltraMessage) (latency : Nat)
  | eof
  | fail (e : Errno)

/-- `UltraHFTServer::handle_client_events` (`src/ultra_hft_server.cpp`
lines 222-261): look the connection up by fd (return if absent), claim the
next receive-buffer slot, `recv` once;
* `ret < 0` with EAGAIN/EWOULDBLOCK: return, nothing closed;
* `ret = 0` or `ret < 0` with any other errno: `close_connection`;
* `0 < ret < sizeof(UltraMessage)`: return (incomplete record);
* otherwise update the latency statistics and `process_message`. -/
def ultraHandleClientEvents (st : UltraState) (client_fd : Nat)
    (outcome : UltraRecvOutcome) : UltraState :=
  match st.connections.find? (fun c => c.fd == client_fd) with
  | none => st
  | some _ =>
    let st := (ultraGetNextRecvBuffer st).2
    match outcome with
    | UltraRecvOutcome.fail e =>
      if e = Errno.EAGAIN ∨ e = Errno.EWOULDBLOCK then
        st
      else
        ultraCloseConnection st client_fd
    | UltraRecvOutcome.eof => ultraCloseConnection st client_fd
    | UltraRecvOutcome.data n m latency =>
      if n < sizeofUltraMessage then
        st
      else
        ultraProcessMessage (ultraUpdateStats st latency) m

/-! ## Accept paths and connection statistics -/

/-- The outcome of one `accept` call: a new client fd together with the
success of the socket-option/non-blocking setup and of the epoll
registration, or a failure with an errno (EAGAIN/EWOULDBLOCK when no
connection is pending). -/
inductive AcceptOutcome where
  | conn (fd : Nat) (setupOk : Bool) (epollOk : Bool)
  | fail (e : Errno)

/-- `HFTServer`'s connection table and statistics as touched by accept and
close (`src/hft_server.h` lines 107-112 and 150): the fds present in
`connections_`, `total_connections` and `peak_connections` (the latency
EMA field is not involved in these paths). -/
structure HftTableState where
  connections : List Nat
  total_connections : Nat
  peak_connections : Nat
deriving DecidableEq

def hftInitTable : HftTableState :=
  { connections := [], total_connections := 0, peak_connections := 0 }

/-- The body of `HFTServer::accept_connections` (`src/hft_server.cpp`
lines 138-183) when an accept succeeds and the epoll registration
succeeds: store the connection under its fd, increment
`total_connections` and raise `peak_connections` to
`max(peak_connections, connections_.size())`.  Client fds handed out by
the kernel are fresh, so the `unordered_map` insert is modelled as an
append. -/
def hftAdmitConnection (st : HftTableState) (fd : Nat) : HftTableState :=
  let connections := st.connections ++ [fd]
  { connections := connections
    total_connections := st.total_connections + 1
    peak_connections := max st.peak_connections connections.length }

/-- `HFTServer::accept_connections` (`src/hft_server.cpp` lines 138-183):
a SINGLE `accept` call per invocation — there is no loop.  EAGAIN means no
pending connection; any other failure is logged; on success the socket is
configured and admitted unless the epoll registration fails, in which case
the fd is closed and dropped. -/
def hftAcceptConnections (outcomes : List AcceptOutcome)
    (st : HftTableState) : HftTableState :=
  match outcomes with
  | [] => st
  | AcceptOutcome.fail _ :: _ => st
  | AcceptOutcome.conn fd _ epollOk :: _ =>
    if epollOk then hftAdmitConnection st fd else st

/-- Erasing a connection from the table, as done by
`HFTServer::close_connection` (`src/hft_server.cpp` lines 395-403). -/
def hftRemoveConnection (st : HftTableState) (fd : Nat) : HftTableState :=
  { st with connections := st.connections.filter (fun f => f != fd) }

/-- The success branch of the `UltraHFTServer::accept_connections` loop
(`src/ultra_hft_server.cpp` lines 190-218): create the connection with
`client_id = connection_count_.fetch_add(1)`, append it to
`connections_`, then `active = active_connections.fetch_add(1) + 1` and
raise `peak_connections` to `active` via the compare-exchange loop
whenever `active > peak`. -/
def ultraAdmitConnection (st : UltraState) (fd : Nat) : UltraState :=
  let conn : UltraConnection :=
    { fd := fd, client_id := st.connection_count
      is_active := true, sockOpen := true, inEpoll := true }
  let active := (st.stats.active_connections + 1) % U64
  let peak :=
    if active > st.stats.peak_connections then active
    else st.stats.peak_connections
  { st with
    connections := st.connections ++ [conn]
    connection_count := (st.connection_count + 1) % U64
    stats := { st.stats with
      active_connections := active, peak_connections := peak } }

/-- `UltraHFTServer::accept_connections` (`src/ultra_hft_server.cpp` lines
170-220): loop over `accept` outcomes; EAGAIN/EWOULDBLOCK breaks the loop
(no more pending connections) and any other accept failure is logged and
also breaks; a connection whose socket setup or epoll registration fails
is closed and skipped (`continue`); otherwise it is admitted. -/
def ultraAcceptConnections : List AcceptOutcome → UltraState → UltraState
  | [], st => st
  | AcceptOutcome.fail _ :: _, st => st
  | AcceptOutcome.conn fd setupOk epollOk :: rest, st =>
    if setupOk then
      if epollOk then ultraAcceptConnections rest (ultraAdmitConnection st fd)
      else ultraAcceptConnections rest st
    else
      ultraAcceptConnections rest st

/-! ## Connection-lifecycle step machines (for the peak/active invariant) -/

/-- One connection-lifecycle event: admitting an accepted client or
closing an existing one. -/
inductive ConnOp where
  | accept (fd : Nat)
  | close (fd : Nat)
deriving DecidableEq

def ultraConnStep (st : UltraState) : ConnOp → UltraState
  | ConnOp.accept fd => ultraAdmitConnection st fd
  | ConnOp.close fd => ultraCloseConnection st fd

def ultraConnRun (st : UltraState) : List ConnOp → UltraState
  | [] => st
  | op :: ops => ultraConnRun (ultraConnStep st op) ops

/-- An operation is valid in a state when it can actually occur in a run
of the server: `close_connection` is only reached via a connection that is
present and active, and the kernel never hands out an fd that is still
open, so an accepted fd is not active in the table. -/
def ultraValidOp (st : UltraState) : ConnOp → Bool
  | ConnOp.accept fd =>
    st.connections.all fun c => !(c.fd == fd && c.is_active)
  | ConnOp.close fd =>
    st.connections.any fun c => c.fd == fd && c.is_active

def ultraValidTrace (st : UltraState) : List ConnOp → Bool
  | [] => true
  | op :: ops => ultraValidOp st op && ultraValidTrace (ultraConnStep st op) ops

def hftConnStep (st : HftTableState) : ConnOp → HftTableState
  | ConnOp.accept fd => hftAdmitConnection st fd
  | ConnOp.close fd => hftRemoveConnection st fd

def hftConnRun (st : HftTableState) : List ConnOp → HftTableState
  | [] => st
  | op :: ops => hftConnRun (hftConnStep st op) ops

/-! ## Server lifecycle: `stop()` -/

/-- The lifecycle-relevant state of `HFTServer`: the `running_` flag, the
listener socket and epoll fds (−1 when closed), the number of unjoined
worker threads, the client fds in `connections_`, and the client fds whose
sockets have been `close`d. -/
structure HftServerState where
  running : Bool
  server_socket : Int
  epoll_fd : Int
  workers : Nat
  connections : List Nat
  closed_fds : List Nat
deriving DecidableEq

/-- `HFTServer::stop` (`src/hft_server.cpp` lines 101-136): if not
running, return immediately; otherwise clear `running_`, close the
listener, join and clear the workers, close epoll, `close` every client
fd and clear the table. -/
def hftStop (s : HftServerState) : HftServerState :=
  if !s.running then s
  else
    { running := false
      server_socket := -1
      epoll_fd := -1
      workers := 0
      connections := []
      closed_fds := s.closed_fds ++ s.connections }

/-- The lifecycle-relevant state of `UltraHFTServer`. -/
structure UltraServerState where
  running : Bool
  server_socket : Int
  epoll_fd : Int
  workers : Nat
  connections : List UltraConnection
deriving DecidableEq

/-- `UltraHFTServer::stop` (`src/ultra_hft_server.cpp` lines 104-130): if
not running, return immediately; otherwise clear `running_`, join and
clear the workers, close epoll, close the listener.  The `connections_`
vector is not touched: no client socket is closed and no record is
dropped. -/
def ultraStop (s : UltraServerState) : UltraServerState :=
  if !s.running then s
  else
    { s with running := false, workers := 0, epoll_fd := -1, server_socket := -1 }

/-! ## Example states used by witnesses and counterexamples -/

/-- An idle dispatch state with an open, registered connection. -/
def hftIoInit : HftIoState :=
  { conn := { sockOpen := true, inEpoll := true, inTable := true }
    invoked := []
    total_messages_processed := 0
    recvErrorLogs := 0 }

/-- An open, active, epoll-registered connection with fd 5. -/
def connExample : UltraConnection :=
  { fd := 5, client_id := 0, is_active := true, sockOpen := true, inEpoll := true }

/-- An ultra server state holding exactly the connection `connExample`. -/
def ultraStateOneConn : UltraState :=
  { ultraInitState with
    connections := [connExample]
    stats := { ultraInitState.stats with
      active_connections := 1, peak_connections := 1 } }

/-- A running ultra server with one open connection. -/
def ultraRunningServer : UltraServerState :=
  { running := true, server_socket := 3, epoll_fd := 4, workers := 2
    connections := [connExample] }

/-- A running HFT server with two open client connections. -/
def hftRunningServer : HftServerState :=
  { running := true, server_socket := 3, epoll_fd := 4, workers := 2
    connections := [7, 8], closed_fds := [] }

/-- A complete record whose `payload_size` exceeds 1024 and whose tag is
ORDER_FILL. -/
def msgOversize : Message :=
  { message_id := 1, timestamp := 1, sequence_number := 0
    message_type := MessageTag.ORDER_FILL, status := MessageStatusTag.PENDING
    source_id := 0, destination_id := 0, payload_size := 2000
    payload := fun _ => 0 }

/-- A stats record with 3 messages totalling 6 ns of latency. -/
def statsExample : UltraServerStats :=
  { total_messages := 3, active_connections := 0, peak_connections := 0
    total_latency := 6, message_count := 3 }

/-! ## C9: `Message::clear` -/

/-- C9: after `clear()` a `Message` equals a default-constructed
`Message` — all numeric header fields and payload bytes are 0,
`message_type` is HEARTBEAT and `status` is PENDING — and `clear` is
idempotent. -/
theorem message_clear_default (m : Message) :
    m.clear = Message.mkDefault ∧
    m.clear.clear = m.clear ∧
    m.clear.message_id = 0 ∧
    m.clear.timestamp = 0 ∧
    m.clear.sequence_number = 0 ∧
    m.clear.source_id = 0 ∧
    m.clear.destination_id = 0 ∧
    m.clear.payload_size = 0 ∧
    m.clear.message_type = MessageTag.HEARTBEAT ∧
    m.clear.status = MessageStatusTag.PENDING ∧
    ∀ i : Fin 1024, m.clear.payload i = 0 :=
  ⟨rfl, rfl, rfl, rfl, rfl, rfl, rfl, rfl, rfl, rfl, fun _ => rfl⟩

/-! ## C10: `UltraServerStats::get_average_latency` -/

/-- C10: `get_average_latency` returns 0 whenever `message_count` is
zero, and `total_latency / message_count` otherwise; the division is only
performed with a non-zero divisor (characterised by the exact product
equation), for every stats state. -/
theorem average_latency_guarded (s : UltraServerStats) :
    (s.message_count = 0 → s.get_average_latency = 0) ∧
    (s.message_count ≠ 0 →
      s.get_average_latency =
        (s.total_latency : Rat) / (s.message_count : Rat) ∧
      s.get_average_latency * (s.message_count : Rat) =
        (s.total_latency : Rat)) := by
  constructor
  · intro h
    simp [UltraServerStats.get_average_latency, h]
  · intro h
    have hc : (s.message_count : Rat) ≠ 0 := by exact_mod_cast h
    constructor
    · simp [UltraServerStats.get_average_latency, h]
    · simp [UltraServerStats.get_average_latency, h]

/-- Witness for `average_latency_guarded`: a stats state with 3 messages
and 6 ns total latency has a non-zero count and average 2. -/
theorem average_latency_guarded_witness :
    statsExample.message_count ≠ 0 ∧
    statsExample.get_average_latency = 2 := by
  have h := (average_latency_guarded statsExample).2 (by decide)
  refine ⟨by decide, ?_⟩
  rw [h.1]
  norm_num [statsExample]

/-! ## C4: `stop()` -/

/-- C4 (amended): after `stop()` on a RUNNING server the running flag is
false, the listener socket and the reactor are closed and all workers are
joined, for both servers; the HFT server moreover closes and drops every
Connection in its table, while the ultra server's `stop()` leaves the
`connections_` vector untouched (no client socket closed, no record
dropped).  `stop()` on a non-running server is a no-op, so a second call
to `stop()` is a no-op that leaves all state unchanged. -/
theorem stop_behaviour :
    (∀ s : HftServerState, s.running = true →
       (hftStop s).running = false ∧
       (hftStop s).server_socket = -1 ∧
       (hftStop s).epoll_fd = -1 ∧
       (hftStop s).workers = 0 ∧
       (hftStop s).connections = [] ∧
       (hftStop s).closed_fds = s.closed_fds ++ s.connections) ∧
    (∀ s : HftServerState, s.running = false → hftStop s = s) ∧
    (∀ s : HftServerState, hftStop (hftStop s) = hftStop s) ∧
    (∀ u : UltraServerState, u.running = true →
       (ultraStop u).running = false ∧
       (ultraStop u).server_socket = -1 ∧
       (ultraStop u).epoll_fd = -1 ∧
       (ultraStop u).workers = 0 ∧
       (ultraStop u).connections = u.connections) ∧
    (∀ u : UltraServerState, u.running = false → ultraStop u = u) ∧
    (∀ u : UltraServerState, ultraStop (ultraStop u) = ultraStop u) := by
  refine ⟨?_, ?_, ?_, ?_, ?_, ?_⟩
  · intro s h
    simp [hftStop, h]
  · intro s h
    simp [hftStop, h]
  · intro s
    by_cases h : s.running = true
    · simp [hftStop, h]
    · simp at h
      simp [hftStop, h]
  · intro u h
    simp [ultraStop, h]
  · intro u h
    simp [ultraStop, h]
  · intro u
    by_cases h : u.running = true
    · simp [ultraStop, h]
    · simp at h
      simp [ultraStop, h]

/-- C4 counterexample: stopping a running ultra server with one open
connection leaves that connection in the table with its socket still
open — it is neither closed nor dropped, contradicting the claim that
every Connection in the table has been closed and dropped. -/
theorem ultra_stop_keeps_connections_counterexample :
    ultraRunningServer.running = true ∧
    (ultraStop ultraRunningServer).connections = [connExample] ∧
    connExample.sockOpen = true ∧
    connExample.is_active = true := by
  refine ⟨rfl, ?_, rfl, rfl⟩
  decide

/-- Witness for `stop_behaviour` at concrete running servers. -/
theorem stop_behaviour_witness :
    hftRunningServer.running = true ∧
    (hftStop hftRunningServer).running = false ∧
    (hftStop hftRunningServer).connections = [] ∧
    ultraStop (ultraStop ultraRunningServer) = ultraStop ultraRunningServer :=
  ⟨rfl, (stop_behaviour.1 hftRunningServer rfl).1,
    (stop_behaviour.1 hftRunningServer rfl).2.2.2.2.1,
    stop_behaviour.2.2.2.2.2 ultraRunningServer⟩

/-! ## C2: every dispatched record is counted exactly once -/

/-- Helper: the HFT dispatcher increments the processed counter by one. -/
lemma hftProcessClientMessage_total (services : Nat → Bool) (st : HftIoState)
    (m : Message) :
    (hftProcessClientMessage services st m).total_messages_processed =
      st.total_messages_processed + 1 := by
  unfold hftProcessClientMessage
  split <;> rfl

/-- Helper: dispatching a record sequence adds its length to the counter. -/
lemma hftDispatchAll_total (services : Nat → Bool) (msgs : List Message) :
    ∀ st : HftIoState,
      (hftDispatchAll services st msgs).total_messages_processed =
        st.total_messages_processed + msgs.length := by
  induction msgs with
  | nil => intro st; simp [hftDispatchAll]
  | cons m ms ih =>
    intro st
    show (hftDispatchAll services (hftProcessClientMessage services st m) ms).total_messages_processed = _
    rw [ih, hftProcessClientMessage_total]
    simp
    omega

/-- C2: every complete record handed to a dispatcher increments the
processed-message counter by exactly one, whether or not a handler is
registered for its tag; when no handler is registered the record is
dropped silently — no handler invocation, no error log, no connection
close — and is still counted; over any record sequence the counter grows
by exactly the number of records.  Both dispatchers
(`HFTServer::process_client_message` and
`UltraHFTServer::process_message`) are covered. -/
theorem dispatcher_counts_every_record :
    (∀ (services : Nat → Bool) (st : HftIoState) (m : Message),
       (hftProcessClientMessage services st m).total_messages_processed =
         st.total_messages_processed + 1 ∧
       (hftProcessClientMessage services st m).conn = st.conn ∧
       (hftProcessClientMessage services st m).recvErrorLogs =
         st.recvErrorLogs ∧
       (services m.message_type = false →
         (hftProcessClientMessage services st m).invoked = st.invoked)) ∧
    (∀ (services : Nat → Bool) (st : HftIoState) (msgs : List Message),
       (hftDispatchAll services st msgs).total_messages_processed =
         st.total_messages_processed + msgs.length) ∧
    (∀ (st : UltraState) (m : UltraMessage),
       (ultraProcessMessage st m).stats.total_messages =
         st.stats.total_messages + 1 ∧
       (ultraProcessMessage st m).connections = st.connections ∧
       (m.message_type ≠ 1 → m.message_type ≠ 2 →
         (ultraProcessMessage st m).invoked = st.invoked)) := by
  refine ⟨?_, ?_, ?_⟩
  · intro services st m
    refine ⟨hftProcessClientMessage_total services st m, ?_, ?_, ?_⟩
    · unfold hftProcessClientMessage
      split <;> rfl
    · unfold hftProcessClientMessage
      split <;> rfl
    · intro h
      unfold hftProcessClientMessage
      simp [h]
  · intro services st msgs
    exact hftDispatchAll_total services msgs st
  · intro st m
    refine ⟨?_, ?_, ?_⟩
    · unfold ultraProcessMessage
      split <;> [rfl; (split <;> rfl)]
    · unfold ultraProcessMessage ultraProcessOrderMessage
        ultraProcessMarketDataMessage ultraGetNextSendBuffer
      split <;> [rfl; (split <;> rfl)]
    · intro h1 h2
      unfold ultraProcessMessage
      simp [h1, h2]

/-- Witness for `dispatcher_counts_every_record`: with an empty registry,
dispatching the default message increments the counter and invokes no
handler; an ultra message with unknown tag 9 is counted and not
dispatched. -/
theorem dispatcher_counts_witness :
    ((fun _ => false : Nat → Bool) Message.mkDefault.message_type = false) ∧
    (hftProcessClientMessage (fun _ => false) hftIoInit
        Message.mkDefault).total_messages_processed =
      hftIoInit.total_messages_processed + 1 ∧
    (hftProcessClientMessage (fun _ => false) hftIoInit
        Message.mkDefault).invoked = hftIoInit.invoked :=
  ⟨rfl,
    (dispatcher_counts_every_record.1 (fun _ => false) hftIoInit
      Message.mkDefault).1,
    (dispatcher_counts_every_record.1 (fun _ => false) hftIoInit
      Message.mkDefault).2.2.2 rfl⟩

/-! ## C5: no payload_size / tag-set validation on the receive path -/

/-- C5 (amended): the HFT server performs no `payload_size` and no
tag-set validation on received records: dispatch is completely insensitive
to `payload_size`, a record is delivered to a handler exactly when one is
registered under its raw tag — even when the tag is outside the
enumerated set — and only records with unregistered tags are not
delivered. -/
theorem dispatch_no_validation :
    (∀ (services : Nat → Bool) (st : HftIoState) (m : Message) (ps : Nat),
       hftProcessClientMessage services st { m with payload_size := ps } =
         hftProcessClientMessage services st m) ∧
    (∀ (services : Nat → Bool) (st : HftIoState) (m : Message),
       (hftProcessClientMessage services st m).invoked =
         st.invoked ++
           (if services m.message_type then [m.message_type] else [])) ∧
    (∀ (services : Nat → Bool) (st : HftIoState) (m : Message),
       validMessageTag m.message_type = false →
       services m.message_type = true →
       (hftProcessClientMessage services st m).invoked =
         st.invoked ++ [m.message_type]) := by
  refine ⟨?_, ?_, ?_⟩
  · intro services st m ps
    unfold hftProcessClientMessage
    rfl
  · intro services st m
    unfold hftProcessClientMessage
    split <;> simp_all
  · intro services st m _ hreg
    unfold hftProcessClientMessage
    simp [hreg]

/-- C5 counterexample: a complete record with `payload_size = 2000 > 1024`
and tag ORDER_FILL received by `handle_client_events` IS delivered to the
handler registered for ORDER_FILL — nothing rejects it. -/
theorem oversize_record_delivered_counterexample :
    1024 < msgOversize.payload_size ∧
    (hftHandleClientEvents (fun t => t == MessageTag.ORDER_FILL)
        [RecvOutcome.data sizeofMessage msgOversize] hftIoInit).invoked =
      [MessageTag.ORDER_FILL] := by
  constructor
  · decide
  · decide

/-- Witness for `dispatch_no_validation`: the out-of-set tag 0x42, when a
handler is registered for it, receives the record. -/
theorem dispatch_no_validation_witness :
    validMessageTag 0x42 = false ∧
    ((fun t => t == 0x42 : Nat → Bool) 0x42 = true) ∧
    (hftProcessClientMessage (fun t => t == 0x42) hftIoInit
        { Message.mkDefault with message_type := 0x42 }).invoked =
      hftIoInit.invoked ++ [0x42] :=
  ⟨by decide, by decide,
    dispatch_no_validation.2.2 (fun t => t == 0x42) hftIoInit
      { Message.mkDefault with message_type := 0x42 } (by decide) (by decide)⟩

/-! ## C3: per-connection service `recv` outcome handling -/

/-- Helper: `ultraCloseConnection` keeps every record in the table. -/
lemma ultraCloseConnection_length (st : UltraState) (fd : Nat) :
    (ultraCloseConnection st fd).connections.length =
      st.connections.length := by
  simp [ultraCloseConnection]

/-- Helper: after `ultraCloseConnection st fd`, every record with that fd
is inactive, its socket closed and its epoll registration removed. -/
lemma ultraCloseConnection_flags (st : UltraState) (fd : Nat) :
    ∀ c ∈ (ultraCloseConnection st fd).connections,
      c.fd = fd → c.is_active = false ∧ c.sockOpen = false ∧ c.inEpoll = false := by
  intro c hc hfd
  simp only [ultraCloseConnection, List.mem_map] at hc
  obtain ⟨a, ha, hfa⟩ := hc
  by_cases h : a.fd = fd
  · rw [if_pos h] at hfa
    rw [← hfa]
    exact ⟨rfl, rfl, rfl⟩
  · rw [if_neg h] at hfa
    rw [← hfa] at hfd
    exact absurd hfd h

/-- C3 (amended): in `HFTServer::handle_client_events`, `recv = 0` closes
the connection (socket closed, deregistered from epoll, removed from the
table), EAGAIN/EWOULDBLOCK stops draining without closing, and ANY OTHER
errno only logs `Recv failed` and stops — the connection is NOT closed.
In `UltraHFTServer::handle_client_events`, `recv = 0` and every non-EAGAIN
errno close the connection (marked inactive, socket closed, deregistered)
but its record REMAINS in the connection table, while EAGAIN/EWOULDBLOCK
returns without closing. -/
theorem recv_outcome_handling :
    (∀ (services : Nat → Bool) (st : HftIoState) (rest : List RecvOutcome),
       hftHandleClientEvents services (RecvOutcome.eof :: rest) st =
         hftCloseConnection st ∧
       (hftCloseConnection st).conn.sockOpen = false ∧
       (hftCloseConnection st).conn.inEpoll = false ∧
       (hftCloseConnection st).conn.inTable = false) ∧
    (∀ (services : Nat → Bool) (st : HftIoState) (rest : List RecvOutcome)
       (e : Errno), (e = Errno.EAGAIN ∨ e = Errno.EWOULDBLOCK) →
       hftHandleClientEvents services (RecvOutcome.fail e :: rest) st = st) ∧
    (∀ (services : Nat → Bool) (st : HftIoState) (rest : List RecvOutcome)
       (e : Errno), ¬(e = Errno.EAGAIN ∨ e = Errno.EWOULDBLOCK) →
       hftHandleClientEvents services (RecvOutcome.fail e :: rest) st =
         { st with recvErrorLogs := st.recvErrorLogs + 1 }) ∧
    (∀ (st : UltraState) (fd : Nat),
       (st.connections.find? (fun c => c.fd == fd)).isSome = true →
       ((ultraHandleClientEvents st fd UltraRecvOutcome.eof).connections.length =
          st.connections.length ∧
        ∀ c ∈ (ultraHandleClientEvents st fd UltraRecvOutcome.eof).connections,
          c.fd = fd →
            c.is_active = false ∧ c.sockOpen = false ∧ c.inEpoll = false) ∧
       (∀ e : Errno, ¬(e = Errno.EAGAIN ∨ e = Errno.EWOULDBLOCK) →
          (ultraHandleClientEvents st fd
              (UltraRecvOutcome.fail e)).connections.length =
            st.connections.length ∧
          ∀ c ∈ (ultraHandleClientEvents st fd
              (UltraRecvOutcome.fail e)).connections,
            c.fd = fd →
              c.is_active = false ∧ c.sockOpen = false ∧ c.inEpoll = false) ∧
       (∀ e : Errno, (e = Errno.EAGAIN ∨ e = Errno.EWOULDBLOCK) →
          (ultraHandleClientEvents st fd
              (UltraRecvOutcome.fail e)).connections = st.connections ∧
          (ultraHandleClientEvents st fd
              (UltraRecvOutcome.fail e)).stats = st.stats)) := by
  refine ⟨?_, ?_, ?_, ?_⟩
  · intro services st rest
    exact ⟨rfl, rfl, rfl, rfl⟩
  · intro services st rest e h
    simp [hftHandleClientEvents, h]
  · intro services st rest e h
    simp [hftHandleClientEvents, h]
  · intro st fd h
    rw [Option.isSome_iff_exists] at h
    obtain ⟨a, ha⟩ := h
    refine ⟨⟨?_, ?_⟩, ?_, ?_⟩
    · simp [ultraHandleClientEvents, ha, ultraGetNextRecvBuffer,
        ultraCloseConnection_length, ultraCloseConnection]
    · intro c hc hfd
      simp only [ultraHandleClientEvents, ha, ultraGetNextRecvBuffer] at hc
      exact ultraCloseConnection_flags _ fd c hc hfd
    · intro e he
      have hne : ¬(e = Errno.EAGAIN ∨ e = Errno.EWOULDBLOCK) := he
      constructor
      · simp [ultraHandleClientEvents, ha, ultraGetNextRecvBuffer, hne,
          ultraCloseConnection]
      · intro c hc hfd
        simp only [ultraHandleClientEvents, ha, ultraGetNextRecvBuffer,
          hne, if_neg] at hc
        exact ultraCloseConnection_flags _ fd c hc hfd
    · intro e he
      constructor
      · simp [ultraHandleClientEvents, ha, ultraGetNextRecvBuffer, he]
      · simp [ultraHandleClientEvents, ha, ultraGetNextRecvBuffer, he]

/-- C3 counterexample: a `recv` failure with ECONNRESET in the HFT server
leaves the connection fully open (socket open, registered, in the table) —
the claim says any non-EAGAIN errno closes the connection; and in the
ultra server a peer EOF closes the connection but its record is NOT
removed from the connection table. -/
theorem recv_error_keeps_connection_counterexample :
    (hftHandleClientEvents (fun _ => false)
        [RecvOutcome.fail Errno.ECONNRESET] hftIoInit).conn.sockOpen = true ∧
    (hftHandleClientEvents (fun _ => false)
        [RecvOutcome.fail Errno.ECONNRESET] hftIoInit).conn.inEpoll = true ∧
    (hftHandleClientEvents (fun _ => false)
        [RecvOutcome.fail Errno.ECONNRESET] hftIoInit).conn.inTable = true ∧
    (ultraHandleClientEvents ultraStateOneConn 5
        UltraRecvOutcome.eof).connections.length = 1 := by
  refine ⟨by decide, by decide, by decide, by decide⟩

/-- Witness for `recv_outcome_handling` at a concrete state: EOF closes
the HFT connection, and EOF on the ultra server keeps its record count. -/
theorem recv_outcome_handling_witness :
    (hftHandleClientEvents (fun _ => false) [RecvOutcome.eof] hftIoInit =
       hftCloseConnection hftIoInit) ∧
    ((ultraStateOneConn.connections.find?
        (fun c => c.fd == 5)).isSome = true) ∧
    (ultraHandleClientEvents ultraStateOneConn 5
        UltraRecvOutcome.eof).connections.length =
      ultraStateOneConn.connections.length :=
  ⟨(recv_outcome_handling.1 (fun _ => false) hftIoInit []).1,
    by decide,
    ((recv_outcome_handling.2.2.2 ultraStateOneConn 5 (by decide)).1).1⟩

/-! ## C6: the accept path -/

/-- Helper: admitting a connection appends one record. -/
lemma ultraAdmitConnection_length (st : UltraState) (fd : Nat) :
    (ultraAdmitConnection st fd).connections.length =
      st.connections.length + 1 := by
  simp [ultraAdmitConnection]

/-- Helper: folding admissions over a list of fds adds one record each. -/
lemma foldl_ultraAdmitConnection_length (fds : List Nat) :
    ∀ st : UltraState,
      (fds.foldl ultraAdmitConnection st).connections.length =
        st.connections.length + fds.length := by
  induction fds with
  | nil => intro st; simp
  | cons fd fds ih =>
    intro st
    show (fds.foldl ultraAdmitConnection (ultraAdmitConnection st fd)).connections.length = _
    rw [ih, ultraAdmitConnection_length]
    simp
    omega

/-- C6 (amended): `UltraHFTServer::accept_connections` loops, admitting
every pending connection whose setup succeeds, and the loop stops at the
first `accept` failure — whether that failure is EAGAIN/EWOULDBLOCK or any
other errno; `HFTServer::accept_connections` contains NO loop and admits
at most one pending connection per listener readiness event. -/
theorem accept_loop_behaviour :
    (∀ (fds : List Nat) (e : Errno) (st : UltraState),
       ultraAcceptConnections
           (fds.map (fun f => AcceptOutcome.conn f true true) ++
             [AcceptOutcome.fail e]) st =
         fds.foldl ultraAdmitConnection st) ∧
    (∀ (fds : List Nat) (e : Errno) (st : UltraState),
       (ultraAcceptConnections
           (fds.map (fun f => AcceptOutcome.conn f true true) ++
             [AcceptOutcome.fail e]) st).connections.length =
         st.connections.length + fds.length) ∧
    (∀ (rest : List AcceptOutcome) (e : Errno) (st : UltraState),
       ultraAcceptConnections (AcceptOutcome.fail e :: rest) st = st) ∧
    (∀ (outcomes : List AcceptOutcome) (st : HftTableState),
       (hftAcceptConnections outcomes st).connections.length ≤
         st.connections.length + 1) := by
  have hrun : ∀ (fds : List Nat) (e : Errno) (st : UltraState),
      ultraAcceptConnections
          (fds.map (fun f => AcceptOutcome.conn f true true) ++
            [AcceptOutcome.fail e]) st =
        fds.foldl ultraAdmitConnection st := by
    intro fds e
    induction fds with
    | nil => intro st; rfl
    | cons fd fds ih =>
      intro st
      show ultraAcceptConnections
          (AcceptOutcome.conn fd true true ::
            (fds.map (fun f => AcceptOutcome.conn f true true) ++
              [AcceptOutcome.fail e])) st = _
      rw [ultraAcceptConnections]
      simp only [if_pos]
      exact ih (ultraAdmitConnection st fd)
  refine ⟨hrun, ?_, ?_, ?_⟩
  · intro fds e st
    rw [hrun, foldl_ultraAdmitConnection_length]
  · intro rest e st
    rfl
  · intro outcomes st
    match outcomes with
    | [] => simp [hftAcceptConnections]
    | AcceptOutcome.fail e :: rest => simp [hftAcceptConnections]
    | AcceptOutcome.conn fd s eo :: rest =>
      rw [hftAcceptConnections]
      by_cases h : eo = true
      · simp [h, hftAdmitConnection]
      · simp at h
        simp [h]

/-- C6 counterexample: two pending connections (fds 5 and 6, both with
successful setup) followed by EAGAIN: a single invocation of
`HFTServer::accept_connections` admits only fd 5 — the readiness event
does not drain all pending accepts. -/
theorem hft_accept_single_counterexample :
    (hftAcceptConnections
        [AcceptOutcome.conn 5 true true, AcceptOutcome.conn 6 true true,
         AcceptOutcome.fail Errno.EAGAIN] hftInitTable).connections = [5] := by
  decide

/-! ## C8: buffer pool slot allocation -/

/-- The send/receive buffer arrays have 1024 slots
(`std::array<UltraMessage, 1024>`, `src/ultra_hft_server.h` lines
186-187). -/
def bufferPoolSize : Nat := 1024

/-- The slot indices returned by `n` consecutive
`get_next_send_buffer()` calls, in call order. -/
def ultraSendSlots (st : UltraState) : Nat → List Nat
  | 0 => []
  | n + 1 =>
    let p := ultraGetNextSendBuffer st
    p.1 :: ultraSendSlots p.2 n

/-- Helper: the `i`-th of `n` consecutive calls returns slot
`((c + i) mod 2^64) mod 1024` where `c` is the starting counter. -/
lemma ultraSendSlots_get (n : Nat) :
    ∀ (st : UltraState), st.send_buffer_index < U64 →
      ∀ i, i < n →
        (ultraSendSlots st n).get? i =
          some (((st.send_buffer_index + i) % U64) % 1024) := by
  induction n with
  | zero => intro st _ i hi; omega
  | succ n ih =>
    intro st hlt i hi
    match i with
    | 0 =>
      show some (st.send_buffer_index % 1024) = _
      rw [Nat.add_zero, Nat.mod_eq_of_lt hlt]
    | Nat.succ j =>
      show (ultraSendSlots (ultraGetNextSendBuffer st).2 n).get? j = _
      have hlt2 : (ultraGetNextSendBuffer st).2.send_buffer_index < U64 := by
        have : 0 < U64 := by norm_num [U64]
        exact Nat.mod_lt _ this
      rw [ih (ultraGetNextSendBuffer st).2 hlt2 j (by omega)]
      show some ((((st.send_buffer_index + 1) % U64 + j) % U64) % 1024) = _
      rw [Nat.mod_add_mod]
      have harith : st.send_buffer_index + 1 + j =
          st.send_buffer_index + (j + 1) := by omega
      rw [harith]

/-- Helper: 1024 divides `2 ^ 64`. -/
lemma dvd_U64 : (1024 : Nat) ∣ U64 := by
  refine ⟨2 ^ 54, ?_⟩
  norm_num [U64]

/-- C8: each `next_send_buffer()` / `next_recv_buffer()` call returns the
slot at index `(previous counter value) mod 1024`, stores the counter
incremented by one (as a `size_t`, i.e. modulo `2 ^ 64`), always returns a
valid slot index below the pool size, and any 1024 consecutive calls
return pairwise distinct slots. -/
theorem buffer_pool_slots :
    (∀ st : UltraState,
       (ultraGetNextSendBuffer st).1 =
         st.send_buffer_index % bufferPoolSize ∧
       (ultraGetNextSendBuffer st).1 < bufferPoolSize ∧
       (ultraGetNextSendBuffer st).2.send_buffer_index =
         (st.send_buffer_index + 1) % U64 ∧
       (ultraGetNextRecvBuffer st).1 =
         st.recv_buffer_index % bufferPoolSize ∧
       (ultraGetNextRecvBuffer st).1 < bufferPoolSize ∧
       (ultraGetNextRecvBuffer st).2.recv_buffer_index =
         (st.recv_buffer_index + 1) % U64) ∧
    (∀ st : UltraState, st.send_buffer_index < U64 →
       ∀ i j, i < bufferPoolSize → j < bufferPoolSize → i ≠ j →
         (ultraSendSlots st bufferPoolSize).get? i ≠
           (ultraSendSlots st bufferPoolSize).get? j) := by
  constructor
  · intro st
    refine ⟨rfl, ?_, rfl, rfl, ?_, rfl⟩
    · exact Nat.mod_lt _ (by norm_num [bufferPoolSize])
    · exact Nat.mod_lt _ (by norm_num [bufferPoolSize])
  · intro st hlt i j hi hj hij
    rw [ultraSendSlots_get bufferPoolSize st hlt i hi,
      ultraSendSlots_get bufferPoolSize st hlt j hj]
    intro h
    rw [Option.some_inj] at h
    rw [Nat.mod_mod_of_dvd _ dvd_U64, Nat.mod_mod_of_dvd _ dvd_U64] at h
    have hmod : i % 1024 = j % 1024 := by
      have hme : Nat.ModEq 1024 (st.send_buffer_index + i)
          (st.send_buffer_index + j) := h
      exact Nat.ModEq.add_left_cancel' st.send_buffer_index hme
    rw [Nat.mod_eq_of_lt (by simpa [bufferPoolSize] using hi),
      Nat.mod_eq_of_lt (by simpa [bufferPoolSize] using hj)] at hmod
    exact hij hmod

/-- Witness for `buffer_pool_slots`: from the initial state, the first and
second calls return different slots. -/
theorem buffer_pool_slots_witness :
    ultraInitState.send_buffer_index < U64 ∧
    (ultraSendSlots ultraInitState bufferPoolSize).get? 0 ≠
      (ultraSendSlots ultraInitState bufferPoolSize).get? 1 :=
  ⟨by norm_num [ultraInitState, U64],
    buffer_pool_slots.2 ultraInitState (by norm_num [ultraInitState, U64])
      0 1 (by norm_num [bufferPoolSize]) (by norm_num [bufferPoolSize])
      (by norm_num)⟩

/-! ## C7: peak / active connection invariant -/

/-- The number of active connection records in a table. -/
def countActive (l : List UltraConnection) : Nat :=
  (l.filter fun c => c.is_active).length

/-- At most one active record per fd (the kernel hands out an fd again
only after it has been closed). -/
def ActiveUnique (l : List UltraConnection) : Prop :=
  l.Pairwise fun c1 c2 =>
    ¬(c1.is_active = true ∧ c2.is_active = true ∧ c1.fd = c2.fd)

/-- Helper: deactivating connections matching an fd preserves fds. -/
lemma deact_fd (fd : Nat) (c : UltraConnection) :
    ((if c.fd = fd then
        { c with is_active := false, sockOpen := false, inEpoll := false }
      else c) : UltraConnection).fd = c.fd := by
  split <;> rfl

/-- Helper: a record active after deactivation was active before. -/
lemma deact_active (fd : Nat) (c : UltraConnection) :
    ((if c.fd = fd then
        { c with is_active := false, sockOpen := false, inEpoll := false }
      else c) : UltraConnection).is_active = true → c.is_active = true := by
  split
  · intro h; exact absurd h (by simp)
  · exact id

/-- Helper: appending an active record increments the active count. -/
lemma countActive_append_active (l : List UltraConnection)
    (c : UltraConnection) (h : c.is_active = true) :
    countActive (l ++ [c]) = countActive l + 1 := by
  simp [countActive, List.filter_append, h]

/-- Helper: the active count never exceeds the table size. -/
lemma countActive_le_length (l : List UltraConnection) :
    countActive l ≤ l.length :=
  List.length_filter_le _ l

/-- Helper: the active flag after deactivation by fd. -/
lemma deact_is_active (fd : Nat) (c : UltraConnection) :
    ((if c.fd = fd then
        { c with is_active := false, sockOpen := false, inEpoll := false }
      else c) : UltraConnection).is_active =
      (if c.fd = fd then false else c.is_active) := by
  split <;> rfl

/-- Helper: unfolding the active count over a cons cell. -/
lemma countActive_cons (a : UltraConnection) (l : List UltraConnection) :
    countActive (a :: l) =
      (if a.is_active = true then 1 else 0) + countActive l := by
  simp only [countActive, List.filter_cons]
  by_cases h : a.is_active = true
  · simp [h, Nat.add_comm]
  · simp [h]

/-- Helper: deactivation by fd leaves the active count unchanged when no
active record carries that fd. -/
lemma countActive_deact_of_not (fd : Nat) :
    ∀ l : List UltraConnection,
      (∀ c ∈ l, ¬(c.is_active = true ∧ c.fd = fd)) →
      countActive (l.map fun c =>
        if c.fd = fd then
          { c with is_active := false, sockOpen := false, inEpoll := false }
        else c) = countActive l := by
  intro l
  induction l with
  | nil => intro _; rfl
  | cons a l ih =>
    intro h
    have ha : ¬(a.is_active = true ∧ a.fd = fd) := h a (by simp)
    have hrest : ∀ c ∈ l, ¬(c.is_active = true ∧ c.fd = fd) := by
      intro c hc; exact h c (by simp [hc])
    have hstep := ih hrest
    simp only [List.map_cons]
    rw [countActive_cons, countActive_cons, hstep, deact_is_active]
    by_cases hfd : a.fd = fd
    · have hact : a.is_active = false := by
        cases hb : a.is_active
        · rfl
        · exact absurd ⟨hb, hfd⟩ ha
      simp [hfd, hact]
    · simp [hfd]

/-- Helper: deactivation by fd removes exactly one active record when the
table has at most one active record per fd and one matches. -/
lemma countActive_deact_of_mem (fd : Nat) :
    ∀ l : List UltraConnection, ActiveUnique l →
      (∃ c ∈ l, c.fd = fd ∧ c.is_active = true) →
      countActive (l.map fun c =>
        if c.fd = fd then
          { c with is_active := false, sockOpen := false, inEpoll := false }
        else c) + 1 = countActive l := by
  intro l
  induction l with
  | nil => intro _ h; simp at h
  | cons a l ih =>
    intro hu hex
    rw [ActiveUnique, List.pairwise_cons] at hu
    obtain ⟨hua, hul⟩ := hu
    by_cases hafd : a.fd = fd ∧ a.is_active = true
    · -- the head is the active record with this fd: no other is
      have hnone : ∀ c ∈ l, ¬(c.is_active = true ∧ c.fd = fd) := by
        intro c hc hcontra
        exact hua c hc ⟨hafd.2, hcontra.1, hafd.1.trans hcontra.2.symm⟩
      have hstep := countActive_deact_of_not fd l hnone
      simp only [List.map_cons]
      rw [countActive_cons, countActive_cons, hstep, deact_is_active]
      simp [hafd.1, hafd.2, Nat.add_comm]
    · -- the head is not it: recurse
      have hex2 : ∃ c ∈ l, c.fd = fd ∧ c.is_active = true := by
        obtain ⟨c, hc, hcfd, hcact⟩ := hex
        rcases List.mem_cons.mp hc with rfl | hcl
        · exact absurd ⟨hcfd, hcact⟩ hafd
        · exact ⟨c, hcl, hcfd, hcact⟩
      have hstep := ih hul hex2
      simp only [List.map_cons]
      rw [countActive_cons, countActive_cons, deact_is_active]
      by_cases hfd : a.fd = fd
      · have hact : a.is_active = false := by
          cases hb : a.is_active
          · rfl
          · exact absurd ⟨hfd, hb⟩ hafd
        simp only [hfd, hact, if_true, if_false]
        omega
      · simp only [hfd, if_false]
        omega

/-- Helper: deactivation preserves uniqueness of active fds. -/
lemma activeUnique_deact (fd : Nat) (l : List UltraConnection)
    (h : ActiveUnique l) :
    ActiveUnique (l.map fun c =>
      if c.fd = fd then
        { c with is_active := false, sockOpen := false, inEpoll := false }
      else c) := by
  refine List.Pairwise.map _ ?_ h
  intro a b hab hcontra
  refine hab ⟨deact_active fd a hcontra.1, deact_active fd b hcontra.2.1, ?_⟩
  have h1 := deact_fd fd a
  have h2 := deact_fd fd b
  rw [← h1, ← h2]
  exact hcontra.2.2

/-- Field equations of `ultraAdmitConnection`. -/
lemma ultraAdmit_fields (st : UltraState) (fd : Nat) :
    (ultraAdmitConnection st fd).connections =
      st.connections ++
        [({ fd := fd, client_id := st.connection_count, is_active := true,
            sockOpen := true, inEpoll := true } : UltraConnection)] ∧
    (ultraAdmitConnection st fd).stats.active_connections =
      (st.stats.active_connections + 1) % U64 ∧
    (ultraAdmitConnection st fd).stats.peak_connections =
      (if (st.stats.active_connections + 1) % U64 > st.stats.peak_connections
       then (st.stats.active_connections + 1) % U64
       else st.stats.peak_connections) :=
  ⟨rfl, rfl, rfl⟩

/-- Helper: `u64sub1` is an ordinary decrement on positive values. -/
lemma u64sub1_pos_eq (x : Nat) (h : 0 < x) : u64sub1 x = x - 1 := by
  cases x with
  | zero => omega
  | succ y => rfl

/-- Field equations of `ultraCloseConnection`. -/
lemma ultraClose_fields (st : UltraState) (fd : Nat) :
    (ultraCloseConnection st fd).connections =
      st.connections.map (fun c =>
        if c.fd = fd then
          { c with is_active := false, sockOpen := false, inEpoll := false }
        else c) ∧
    (ultraCloseConnection st fd).stats.active_connections =
      u64sub1 st.stats.active_connections ∧
    (ultraCloseConnection st fd).stats.peak_connections =
      st.stats.peak_connections :=
  ⟨rfl, rfl, rfl⟩

/-- The reachable-state invariant of the ultra server's connection
statistics: `active_connections` equals the number of active records,
`peak_connections` dominates it, and active fds are unique. -/
def UltraConnInv (st : UltraState) : Prop :=
  st.stats.active_connections = countActive st.connections ∧
  countActive st.connections ≤ st.stats.peak_connections ∧
  ActiveUnique st.connections

lemma ultraConnInv_init : UltraConnInv ultraInitState :=
  ⟨rfl, Nat.le_refl 0, List.Pairwise.nil⟩

/-- One valid connection-lifecycle step preserves the invariant, never
lowers the peak, and grows the table by at most one record. -/
lemma ultraConnStep_inv (st : UltraState) (op : ConnOp)
    (hinv : UltraConnInv st) (hval : ultraValidOp st op = true)
    (hlen : st.connections.length + 1 < U64) :
    UltraConnInv (ultraConnStep st op) ∧
    st.stats.peak_connections ≤ (ultraConnStep st op).stats.peak_connections ∧
    (ultraConnStep st op).connections.length ≤ st.connections.length + 1 := by
  obtain ⟨hact, hpeak, huniq⟩ := hinv
  have hca := countActive_le_length st.connections
  cases op with
  | accept fd =>
    have hfresh : ∀ c ∈ st.connections, ¬(c.fd = fd ∧ c.is_active = true) := by
      intro c hc
      have h := (List.all_eq_true.mp hval) c hc
      simp at h
      intro hcontra
      rcases h with h | h
      · exact h hcontra.1
      · rw [hcontra.2] at h; simp at h
    obtain ⟨hconn, hacteq, hpeakeq⟩ := ultraAdmit_fields st fd
    have hmod : (st.stats.active_connections + 1) % U64 =
        countActive st.connections + 1 := by
      rw [hact]
      exact Nat.mod_eq_of_lt (by omega)
    have hcnt : countActive ((ultraAdmitConnection st fd).connections) =
        countActive st.connections + 1 := by
      rw [hconn]
      exact countActive_append_active _ _ rfl
    show UltraConnInv (ultraAdmitConnection st fd) ∧
      st.stats.peak_connections ≤
        (ultraAdmitConnection st fd).stats.peak_connections ∧
      (ultraAdmitConnection st fd).connections.length ≤
        st.connections.length + 1
    refine ⟨⟨?_, ?_, ?_⟩, ?_, ?_⟩
    · rw [hacteq, hmod, hcnt]
    · rw [hcnt, hpeakeq, hmod]
      by_cases h : countActive st.connections + 1 > st.stats.peak_connections
      · rw [if_pos h]
      · rw [if_neg h]
        omega
    · rw [hconn]
      rw [ActiveUnique, List.pairwise_append]
      refine ⟨huniq, List.pairwise_singleton _ _, ?_⟩
      intro a ha b hb
      rw [List.mem_singleton] at hb
      subst hb
      intro hcontra
      exact hfresh a ha ⟨hcontra.2.2, hcontra.1⟩
    · rw [hpeakeq]
      by_cases h : (st.stats.active_connections + 1) % U64 >
          st.stats.peak_connections
      · rw [if_pos h]
        omega
      · rw [if_neg h]
    · rw [hconn]
      simp
  | close fd =>
    have hex : ∃ c ∈ st.connections, c.fd = fd ∧ c.is_active = true := by
      obtain ⟨c, hc, h⟩ := List.any_eq_true.mp hval
      simp at h
      exact ⟨c, hc, h⟩
    obtain ⟨hconn, hacteq, hpeakeq⟩ := ultraClose_fields st fd
    have hpos : 1 ≤ countActive st.connections := by
      obtain ⟨c, hc, _, hcact⟩ := hex
      have hmem : c ∈ st.connections.filter (fun c => c.is_active) :=
        List.mem_filter.mpr ⟨hc, by simp [hcact]⟩
      exact List.length_pos_of_mem hmem
    have hcnt : countActive ((ultraCloseConnection st fd).connections) + 1 =
        countActive st.connections := by
      rw [hconn]
      exact countActive_deact_of_mem fd st.connections huniq hex
    have hmod : u64sub1 st.stats.active_connections =
        countActive st.connections - 1 := by
      rw [hact]
      exact u64sub1_pos_eq _ hpos
    show UltraConnInv (ultraCloseConnection st fd) ∧
      st.stats.peak_connections ≤
        (ultraCloseConnection st fd).stats.peak_connections ∧
      (ultraCloseConnection st fd).connections.length ≤
        st.connections.length + 1
    refine ⟨⟨?_, ?_, ?_⟩, ?_, ?_⟩
    · rw [hacteq, hmod]
      omega
    · rw [hpeakeq]
      omega
    · rw [hconn]
      exact activeUnique_deact fd st.connections huniq
    · rw [hpeakeq]
    · rw [hconn]
      simp

/-- Running a valid trace of bounded length from an invariant state keeps
the invariant, never lowers the peak and bounds the table size. -/
lemma ultraConnRun_inv :
    ∀ (ops : List ConnOp) (st : UltraState),
      UltraConnInv st → ultraValidTrace st ops = true →
      st.connections.length + ops.length < U64 →
      UltraConnInv (ultraConnRun st ops) ∧
      st.stats.peak_connections ≤
        (ultraConnRun st ops).stats.peak_connections ∧
      (ultraConnRun st ops).connections.length ≤
        st.connections.length + ops.length := by
  intro ops
  induction ops with
  | nil =>
    intro st hinv _ _
    exact ⟨hinv, le_refl _, by simp [ultraConnRun]⟩
  | cons op ops ih =>
    intro st hinv htr hlen
    rw [ultraValidTrace, Bool.and_eq_true] at htr
    obtain ⟨hop, htr2⟩ := htr
    have hlen1 : st.connections.length + 1 < U64 := by
      simp at hlen; omega
    have hstep := ultraConnStep_inv st op hinv hop hlen1
    have hlen2 : (ultraConnStep st op).connections.length + ops.length < U64 := by
      have := hstep.2.2
      simp at hlen
      omega
    have hih := ih (ultraConnStep st op) hstep.1 htr2 hlen2
    refine ⟨hih.1, le_trans hstep.2.1 hih.2.1, ?_⟩
    rw [show ultraConnRun st (op :: ops) =
        ultraConnRun (ultraConnStep st op) ops from rfl]
    have h1 := hih.2.2
    have h2 := hstep.2.2
    simp only [List.length_cons]
    omega

/-- Running an operation list decomposes over append. -/
lemma ultraConnRun_append (ops more : List ConnOp) :
    ∀ st, ultraConnRun st (ops ++ more) =
      ultraConnRun (ultraConnRun st ops) more := by
  induction ops with
  | nil => intro st; rfl
  | cons op ops ih => intro st; exact ih (ultraConnStep st op)

/-- Validity of a trace decomposes over append. -/
lemma ultraValidTrace_append (ops more : List ConnOp) :
    ∀ st, ultraValidTrace st (ops ++ more) = true →
      ultraValidTrace st ops = true ∧
      ultraValidTrace (ultraConnRun st ops) more = true := by
  induction ops with
  | nil => intro st h; exact ⟨rfl, h⟩
  | cons op ops ih =>
    intro st h
    rw [List.cons_append, ultraValidTrace, Bool.and_eq_true] at h
    obtain ⟨h1, h2⟩ := h
    obtain ⟨h3, h4⟩ := ih (ultraConnStep st op) h2
    constructor
    · rw [ultraValidTrace, Bool.and_eq_true]
      exact ⟨h1, h3⟩
    · exact h4

/-- One HFT connection-table step keeps `peak ≥ size` and never lowers
the peak. -/
lemma hftConnStep_peak (st : HftTableState) (op : ConnOp)
    (hinv : st.connections.length ≤ st.peak_connections) :
    (hftConnStep st op).connections.length ≤
      (hftConnStep st op).peak_connections ∧
    st.peak_connections ≤ (hftConnStep st op).peak_connections := by
  cases op with
  | accept fd =>
    constructor
    · show (st.connections ++ [fd]).length ≤
        max st.peak_connections (st.connections ++ [fd]).length
      exact le_max_right _ _
    · exact le_max_left _ _
  | close fd =>
    constructor
    · show (st.connections.filter (fun f => f != fd)).length ≤
        st.peak_connections
      exact le_trans (List.length_filter_le _ _) hinv
    · exact le_refl _

/-- The HFT `peak ≥ size` invariant and peak monotonicity over any run. -/
lemma hftConnRun_peak :
    ∀ (ops : List ConnOp) (st : HftTableState),
      st.connections.length ≤ st.peak_connections →
      (hftConnRun st ops).connections.length ≤
        (hftConnRun st ops).peak_connections ∧
      st.peak_connections ≤ (hftConnRun st ops).peak_connections := by
  intro ops
  induction ops with
  | nil => intro st hinv; exact ⟨hinv, le_refl _⟩
  | cons op ops ih =>
    intro st hinv
    have hstep := hftConnStep_peak st op hinv
    have hih := ih (hftConnStep st op) hstep.1
    exact ⟨hih.1, le_trans hstep.2 hih.2⟩

/-- `hftConnRun` decomposes over append. -/
lemma hftConnRun_append (ops more : List ConnOp) :
    ∀ st, hftConnRun st (ops ++ more) =
      hftConnRun (hftConnRun st ops) more := by
  induction ops with
  | nil => intro st; rfl
  | cons op ops ih => intro st; exact ih (hftConnStep st op)

/-- C7: across any valid sequence of accept and close operations (closes
only of present active connections, accepts only of fresh fds, fewer than
`2 ^ 64` operations) starting from the initial state,
`peak_connections ≥ active_connections` holds at every reachable state and
`peak_connections` never decreases along the trace; likewise for the HFT
server, whose active-connection count is its table size. -/
theorem peak_connections_invariant :
    (∀ ops : List ConnOp,
       ultraValidTrace ultraInitState ops = true → ops.length < U64 →
       (ultraConnRun ultraInitState ops).stats.active_connections ≤
         (ultraConnRun ultraInitState ops).stats.peak_connections) ∧
    (∀ ops more : List ConnOp,
       ultraValidTrace ultraInitState (ops ++ more) = true →
       (ops ++ more).length < U64 →
       (ultraConnRun ultraInitState ops).stats.peak_connections ≤
         (ultraConnRun ultraInitState (ops ++ more)).stats.peak_connections) ∧
    (∀ ops : List ConnOp,
       (hftConnRun hftInitTable ops).connections.length ≤
         (hftConnRun hftInitTable ops).peak_connections) ∧
    (∀ ops more : List ConnOp,
       (hftConnRun hftInitTable ops).peak_connections ≤
         (hftConnRun hftInitTable (ops ++ more)).peak_connections) := by
  refine ⟨?_, ?_, ?_, ?_⟩
  · intro ops htr hlen
    have h := ultraConnRun_inv ops ultraInitState ultraConnInv_init htr
      (by simpa [ultraInitState] using hlen)
    obtain ⟨⟨hact, hpeak, _⟩, _, _⟩ := h
    rw [hact]
    exact hpeak
  · intro ops more htr hlen
    obtain ⟨htr1, htr2⟩ := ultraValidTrace_append ops more ultraInitState htr
    simp only [List.length_append] at hlen
    have h1 := ultraConnRun_inv ops ultraInitState ultraConnInv_init htr1
      (by simp [ultraInitState]; omega)
    have h2 := ultraConnRun_inv more (ultraConnRun ultraInitState ops)
      h1.1 htr2 (by
        have := h1.2.2
        simp [ultraInitState] at this ⊢
        omega)
    rw [ultraConnRun_append]
    exact h2.2.1
  · intro ops
    exact (hftConnRun_peak ops hftInitTable (by simp [hftInitTable])).1
  · intro ops more
    rw [hftConnRun_append]
    exact (hftConnRun_peak more (hftConnRun hftInitTable ops)
      (hftConnRun_peak ops hftInitTable (by simp [hftInitTable])).1).2

/-- Witness for `peak_connections_invariant`: the valid trace that accepts
fd 3 and then closes it. -/
theorem peak_connections_invariant_witness :
    ultraValidTrace ultraInitState [ConnOp.accept 3, ConnOp.close 3] = true ∧
    ([ConnOp.accept 3, ConnOp.close 3] : List ConnOp).length < U64 ∧
    (ultraConnRun ultraInitState
        [ConnOp.accept 3, ConnOp.close 3]).stats.active_connections ≤
      (ultraConnRun ultraInitState
        [ConnOp.accept 3, ConnOp.close 3]).stats.peak_connections :=
  ⟨by decide, by decide,
    peak_connections_invariant.1 [ConnOp.accept 3, ConnOp.close 3]
      (by decide) (by decide)⟩
